import Mathlib

/-!
Verification of the k8s-jumperless device-communication layer.

Go strings are embedded as `List Char` (`String` at the boundaries), Go maps
as update functions or association lists, Go `time.Duration`/`int` fields that
the verified logic never computes with as `Int`, and decimal voltage literals
as exact rationals.  The two emulator generations are embedded separately:
`Legacy` for `utils/jumperless-emulator/emulator` (single-string responses,
regex matching) and `Chunked` for the chunk-based emulator (trim-equality
matching, chunked response options).
-/

/-- Characters Go `strings.TrimSpace` removes for ASCII input:
space, tab, newline, vertical tab, form feed, carriage return. -/
def goIsSpace (c : Char) : Bool :=
  c == ' ' || c == Char.ofNat 9 || c == Char.ofNat 10 ||
  c == Char.ofNat 11 || c == Char.ofNat 12 || c == Char.ofNat 13

/-- Leading-whitespace trim (Go `strings.TrimLeft(s, whitespace)`). -/
def trimLeftL (l : List Char) : List Char := l.dropWhile goIsSpace

/-- Trailing-whitespace trim. -/
def trimRightL (l : List Char) : List Char := (l.reverse.dropWhile goIsSpace).reverse

/-- Go `strings.TrimSpace` on a character list. -/
def goTrimSpaceL (l : List Char) : List Char := trimRightL (trimLeftL l)

/-- Go `strings.TrimSpace` on a string. -/
def goTrimSpace (s : String) : String := String.mk (goTrimSpaceL s.toList)

/-- Does `s` start with `p` (Go `strings.HasPrefix s p`)? -/
def startsWithL : List Char → List Char → Bool
  | _, [] => true
  | [], _ :: _ => false
  | c :: cs, p :: ps => c == p && startsWithL cs ps

/-- Does `s` contain `pat` as a contiguous substring (Go `strings.Contains`)? -/
def containsL : List Char → List Char → Bool
  | [], pat => pat.isEmpty
  | c :: rest, pat => startsWithL (c :: rest) pat || containsL rest pat

/-- Go `strings.TrimPrefix`. -/
def trimPrefixL (l pre : List Char) : List Char :=
  if startsWithL l pre then l.drop pre.length else l

/-- Does `s` end with `suf`? -/
def endsWithL (l suf : List Char) : Bool := startsWithL l.reverse suf.reverse

/-- Go `strings.TrimSuffix`. -/
def trimSuffixL (l suf : List Char) : List Char :=
  if endsWithL l suf then l.take (l.length - suf.length) else l

/-- Go `strings.Cut(s, sep)` for a non-empty separator: returns
`(before, after, found)` cutting at the first occurrence. -/
def cutSub (sep : List Char) : List Char → List Char × List Char × Bool
  | [] => ([], [], false)
  | c :: rest =>
    if startsWithL (c :: rest) sep then ([], (c :: rest).drop sep.length, true)
    else
      let r := cutSub sep rest
      (c :: r.1, r.2.1, r.2.2)

/-- Split on a single separator character (Go `strings.Split(s, sep)` for a
one-character separator): empty segments are kept; the empty input yields
one empty segment. -/
def splitChar (sep : Char) : List Char → List (List Char)
  | [] => [[]]
  | c :: rest =>
    let r := splitChar sep rest
    if c == sep then [] :: r
    else
      match r with
      | [] => [[c]]
      | seg :: segs => (c :: seg) :: segs

/-- Split on the two-character sequence CR LF (Go `strings.Split(s, "\r\n")`). -/
def splitCRLF : List Char → List (List Char)
  | [] => [[]]
  | [c] => [[c]]
  | a :: b :: rest =>
    if a == Char.ofNat 13 && b == Char.ofNat 10 then [] :: splitCRLF rest
    else
      match splitCRLF (b :: rest) with
      | [] => [[a]]
      | seg :: segs => (a :: seg) :: segs

/-- ASCII digit test (regex `\d`, Go `unicode.IsDigit` on ASCII). -/
def digitC (c : Char) : Bool := '0' ≤ c && c ≤ '9'

/-- ASCII letter test (regex `[[:alpha:]]`). -/
def alphaC (c : Char) : Bool := ('a' ≤ c && c ≤ 'z') || ('A' ≤ c && c ≤ 'Z')

/-- Numeric value of a digit string. -/
def natOfDigits (ds : List Char) : Nat :=
  ds.foldl (fun acc c => acc * 10 + (c.toNat - 48)) 0

/-- Go `strconv.ParseInt(s, 10, 32)`: optional sign, decimal digits,
32-bit signed range; anything else is an error (`none`). -/
def parseIntGo (s : List Char) : Option Int :=
  match s with
  | [] => none
  | c :: rest =>
    let p : Bool × List Char :=
      if c = '-' then (true, rest) else if c = '+' then (false, rest) else (false, c :: rest)
    let neg := p.1
    let ds := p.2
    if ds ≠ [] ∧ ds.all digitC = true then
      let v : Int := if neg then -(natOfDigits ds : Int) else (natOfDigits ds : Int)
      if -(2 ^ 31) ≤ v ∧ v ≤ 2 ^ 31 - 1 then some v else none
    else none

/-- A node-to-node connection (`Connection` in the emulator config). -/
structure Connection where
  nodeA : String
  nodeB : String
deriving Repr, DecidableEq

/-- Does connection `c` join `a` and `b` in either order?  This is the
duplicate test used by `addConnection`, `removeConnection` and `isConnected`
in emulator.go. -/
def connMatches (c : Connection) (a b : String) : Bool :=
  (c.nodeA == a && c.nodeB == b) || (c.nodeA == b && c.nodeB == a)

/-- `Emulator.addConnection`: append the pair unless it is already present in
either order (the Go loop returns early on the first match; the check is
equivalent to `any`). -/
def addConnection (conns : List Connection) (a b : String) : List Connection :=
  if conns.any (fun c => connMatches c a b) then conns
  else conns ++ [{ nodeA := a, nodeB := b }]

/-- `Emulator.isConnected`. -/
def isConnected (conns : List Connection) (a b : String) : Bool :=
  conns.any (fun c => connMatches c a b)

/-- Number of entries for the unordered pair `{a, b}`. -/
def pairCount (conns : List Connection) (a b : String) : Nat :=
  conns.countP (fun c => connMatches c a b)

theorem connMatches_symm (c : Connection) (a b : String) :
    connMatches c b a = connMatches c a b := by
  simp [connMatches, Bool.or_comm]

theorem connMatches_self (a b : String) :
    connMatches { nodeA := a, nodeB := b } a b = true := by
  simp [connMatches]

theorem connMatches_self_swap (a b : String) :
    connMatches { nodeA := a, nodeB := b } b a = true := by
  simp [connMatches]

theorem pairCount_addConnection (conns : List Connection) (a b : String)
    (h : pairCount conns a b ≤ 1) :
    pairCount (addConnection conns a b) a b = 1 := by
  unfold addConnection
  by_cases hany : conns.any (fun c => connMatches c a b) = true
  · rw [if_pos hany]
    have hpos : 0 < pairCount conns a b := by
      rw [List.any_eq_true] at hany
      obtain ⟨c, hc, hm⟩ := hany
      exact List.countP_pos_iff.mpr ⟨c, hc, hm⟩
    omega
  · rw [if_neg hany]
    have hzero : pairCount conns a b = 0 := by
      rw [pairCount, List.countP_eq_zero]
      intro c hc hm
      exact hany (List.any_eq_true.mpr ⟨c, hc, hm⟩)
    rw [pairCount, List.countP_append]
    rw [pairCount] at hzero
    simp [hzero, connMatches_self]

theorem addConnection_mem_noop (conns : List Connection) (a b a2 b2 : String)
    (h : conns.any (fun c => connMatches c a2 b2) = true) :
    addConnection conns a2 b2 = conns := by
  unfold addConnection
  rw [if_pos h]

/-- C6: starting from a duplicate-free connection list, `connect(A,B)` twice
leaves exactly one entry for the unordered pair, and `connect(A,B)` then
`connect(B,A)` also leaves exactly one entry: `addConnection` is idempotent
and insensitive to argument order. -/
theorem connect_idempotent_unordered (conns : List Connection) (a b : String)
    (h : pairCount conns a b ≤ 1) :
    pairCount (addConnection (addConnection conns a b) a b) a b = 1 ∧
    pairCount (addConnection (addConnection conns a b) b a) a b = 1 := by
  have h1 : pairCount (addConnection conns a b) a b = 1 :=
    pairCount_addConnection conns a b h
  have hany : (addConnection conns a b).any (fun c => connMatches c a b) = true := by
    rw [List.any_eq_true]
    have : 0 < pairCount (addConnection conns a b) a b := by omega
    exact List.countP_pos_iff.mp this
  have hany2 : (addConnection conns a b).any (fun c => connMatches c b a) = true := by
    rw [List.any_eq_true] at hany ⊢
    obtain ⟨c, hc, hm⟩ := hany
    exact ⟨c, hc, by rw [connMatches_symm]; exact hm⟩
  constructor
  · rw [addConnection_mem_noop _ a b a b hany]; exact h1
  · rw [addConnection_mem_noop _ a b b a hany2]; exact h1

/-- C6 witness: concrete instance starting from the empty connection list. -/
theorem connect_idempotent_unordered_witness :
    pairCount ([] : List Connection) "A" "B" ≤ 1 ∧
    (pairCount (addConnection (addConnection [] "A" "B") "A" "B") "A" "B" = 1 ∧
     pairCount (addConnection (addConnection [] "A" "B") "B" "A") "A" "B" = 1) :=
  ⟨by decide, connect_idempotent_unordered [] "A" "B" (by decide)⟩

namespace Legacy

/-- `ResponseOption` of the legacy emulator config (single-string response,
weight and order). -/
structure ResponseOption where
  response : String
  weight : Int
  order : Int
deriving Repr, DecidableEq

/-- `ResponseConfig` of the legacy emulator config (durations in
nanoseconds as `Int`). -/
structure ResponseConfig where
  delay : Int
  jitterMax : Int
  chunked : Bool
  chunkSize : Int
  chunkDelay : Int
  selectionMode : String
deriving Repr, DecidableEq

/-- `RequestResponse` of the legacy emulator config. -/
structure RequestResponse where
  request : String
  isRegex : Bool
  response : String
  responses : List ResponseOption
  responseConfig : ResponseConfig
deriving Repr, DecidableEq

/-- `rr.Responses[i].Response` with the Go zero value for an out-of-range
index (indices used by the selection functions are always in range). -/
def optResponse (l : List ResponseOption) (i : Nat) : String :=
  ((l.get? i).map ResponseOption.response).getD ""

/-- `getSequentialResponse`. -/
def getSequentialResponse (rr : RequestResponse) (counter : Nat) : String :=
  if rr.responses.length = 0 then ""
  else optResponse rr.responses (counter % rr.responses.length)

/-- `getRandomResponse`; `rand.Intn n` is modelled by the oracle `rng`
forced into `[0, n)`. -/
def getRandomResponse (rng : Nat → Nat) (rr : RequestResponse) : String :=
  if rr.responses.length = 0 then ""
  else optResponse rr.responses (rng rr.responses.length % rr.responses.length)

/-- Weight of an option with the `≤ 0` default of 1. -/
def weightOf (o : ResponseOption) : Int :=
  if o.weight ≤ 0 then 1 else o.weight

/-- Total weight of a response list. -/
def totalWeight (l : List ResponseOption) : Int := (l.map weightOf).sum

/-- The linear scan of `getWeightedResponse`: first option whose cumulative
weight exceeds the target. -/
def weightedScan (target : Int) : List ResponseOption → Int → Option String
  | [], _ => none
  | o :: rest, current =>
    let current := current + weightOf o
    if target < current then some o.response else weightedScan target rest current

/-- `getWeightedResponse`. -/
def getWeightedResponse (rng : Nat → Nat) (rr : RequestResponse) : String :=
  if rr.responses.length = 0 then ""
  else
    let tw := totalWeight rr.responses
    if tw = 0 then getRandomResponse rng rr
    else
      let target : Int := (rng tw.toNat % tw.toNat : Nat)
      (weightedScan target rr.responses 0).getD
        (optResponse rr.responses (rr.responses.length - 1))

/-- `RequestResponse.GetResponse` of the legacy emulator config: the
single-string `Response` short-circuits everything; otherwise the
selection mode chooses among `Responses`. -/
def GetResponse (rng : Nat → Nat) (rr : RequestResponse) (requestCounter : Nat) : String :=
  if rr.response ≠ "" then rr.response
  else if rr.responses.length = 0 then ""
  else if rr.responses.length = 1 then optResponse rr.responses 0
  else
    match rr.responseConfig.selectionMode with
    | "sequential" => getSequentialResponse rr requestCounter
    | "random" => getRandomResponse rng rr
    | "weighted" => getWeightedResponse rng rr
    | _ => getSequentialResponse rr requestCounter

end Legacy

/-- C9: whenever the legacy single-string `Response` field is non-empty,
`GetResponse` returns it for every counter value and every random oracle:
the `Responses` list and the selection mode are ignored. -/
theorem getResponse_single_string_wins (rng : Nat → Nat)
    (rr : Legacy.RequestResponse) (counter : Nat) (h : rr.response ≠ "") :
    Legacy.GetResponse rng rr counter = rr.response := by
  unfold Legacy.GetResponse
  rw [if_pos h]

/-- C9 witness: a mapping with both a single response and a two-element
response list returns the single response at two different counters. -/
theorem getResponse_single_string_wins_witness :
    (Legacy.RequestResponse.response
        ⟨"q", false, "S", [⟨"A", 0, 0⟩, ⟨"B", 0, 1⟩], ⟨0, 0, false, 0, 0, "sequential"⟩⟩ ≠ "") ∧
    Legacy.GetResponse (fun _ => 0)
        ⟨"q", false, "S", [⟨"A", 0, 0⟩, ⟨"B", 0, 1⟩], ⟨0, 0, false, 0, 0, "sequential"⟩⟩ 5 = "S" :=
  ⟨by decide,
   getResponse_single_string_wins (fun _ => 0)
     ⟨"q", false, "S", [⟨"A", 0, 0⟩, ⟨"B", 0, 1⟩], ⟨0, 0, false, 0, 0, "sequential"⟩⟩ 5 (by decide)⟩

/-- Pointwise update of a counter map (`map[string]int` read with default 0). -/
def cUpd (m : String → Nat) (k : String) (v : Nat) : String → Nat :=
  fun x => if x = k then v else m x

namespace Chunked

/-- `ResponseChunk` of the chunk-based emulator config. -/
structure ResponseChunk where
  data : String
  delay : Int
  jitterMax : Int
deriving Repr, DecidableEq

/-- `ResponseOption` of the chunk-based emulator config. -/
structure ResponseOption where
  chunks : List ResponseChunk
deriving Repr, DecidableEq

/-- `RequestResponse` of the chunk-based emulator config. -/
structure RequestResponse where
  request : String
  responses : List ResponseOption
deriving Repr, DecidableEq

/-- Errors of the chunk-based `sendResponse`. -/
inductive EmuErr
  | noResponsesConfigured
  | shortWrite
deriving Repr, DecidableEq

/-- The bytes written for one chunk: `strconv.Unquote` of its data when that
succeeds (`unquote` is the oracle abstracting it), the raw data otherwise. -/
def chunkText (unquote : String → Option String) (c : ResponseChunk) : String :=
  match unquote c.data with
  | some u => u
  | none => c.data

/-- The chunk-based `Emulator.sendResponse`: read the per-mapping counter,
pick index 0 for a single response and `counter % n` otherwise, error out on
an empty response list before touching the counter, then increment the
counter and emit every chunk of the chosen option in order.  Returns the
updated counters, the chosen index and the written chunk texts. -/
def sendResponse (unquote : String → Option String) (counters : String → Nat)
    (m : RequestResponse) : Except EmuErr ((String → Nat) × Nat × List String) :=
  let key := m.request
  let c := counters key
  if m.responses.length = 0 then .error .noResponsesConfigured
  else
    let requestIndex := if m.responses.length = 1 then 0 else c % m.responses.length
    let counters2 := cUpd counters key (c + 1)
    let chunks := ((m.responses.get? requestIndex).map ResponseOption.chunks).getD []
    .ok (counters2, requestIndex, chunks.map (chunkText unquote))

/-- Indices chosen by `n` consecutive `sendResponse` calls on one mapping. -/
def runIndices (m : RequestResponse) : (String → Nat) → Nat → List Nat
  | _, 0 => []
  | counters, n + 1 =>
    match sendResponse (fun _ => none) counters m with
    | .error _ => []
    | .ok (c2, i, _) => i :: runIndices m c2 n

end Chunked

namespace Legacy

/-- The counter handling of the legacy `Emulator.sendResponse`
(emulator.go): the per-mapping counter is incremented FIRST and
`GetResponse` is then called with the incremented value. -/
def sendResponseText (rng : Nat → Nat) (counters : String → Nat)
    (m : RequestResponse) : (String → Nat) × String :=
  let key := m.request
  let counters2 := cUpd counters key (counters key + 1)
  (counters2, GetResponse rng m (counters2 key))

/-- Response texts produced by `n` consecutive matched requests on one
legacy mapping. -/
def runTexts (rng : Nat → Nat) (m : RequestResponse) : (String → Nat) → Nat → List String
  | _, 0 => []
  | counters, n + 1 =>
    let r := sendResponseText rng counters m
    r.2 :: runTexts rng m r.1 n

end Legacy

theorem chunked_runIndices_formula (m : Chunked.RequestResponse) (k : Nat)
    (hk : m.responses.length = k) (h1 : 1 ≤ k) :
    ∀ (n : Nat) (counters : String → Nat),
      Chunked.runIndices m counters n =
        (List.range n).map (fun i => (counters m.request + i) % k) := by
  intro n
  induction n with
  | zero => intro counters; simp [Chunked.runIndices]
  | succ n ih =>
    intro counters
    have hne : ¬ m.responses.length = 0 := by omega
    have hidx : (if m.responses.length = 1 then 0 else counters m.request % m.responses.length)
        = counters m.request % k := by
      by_cases hone : m.responses.length = 1
      · rw [if_pos hone]
        have : k = 1 := by omega
        simp [this, Nat.mod_one]
      · rw [if_neg hone, hk]
    rw [Chunked.runIndices]
    rw [Chunked.sendResponse]
    simp only [hne, if_false]
    rw [hidx]
    rw [ih (cUpd counters m.request (counters m.request + 1))]
    have hcnt : cUpd counters m.request (counters m.request + 1) m.request
        = counters m.request + 1 := by simp [cUpd]
    rw [hcnt]
    rw [List.range_succ_eq_map]
    simp only [List.map_cons, List.map_map]
    rw [List.cons_eq_cons]
    refine ⟨by simp, ?_⟩
    apply List.map_congr_left
    intro i _
    simp only [Function.comp_apply]
    congr 1
    first
    | omega
    | (congr 1; omega)

theorem legacy_runTexts_formula (rng : Nat → Nat) (m : Legacy.RequestResponse) (k : Nat)
    (hresp : m.response = "")
    (hmode : m.responseConfig.selectionMode = "sequential" ∨ m.responseConfig.selectionMode = "")
    (hk : m.responses.length = k) (h1 : 1 ≤ k) :
    ∀ (n : Nat) (counters : String → Nat),
      Legacy.runTexts rng m counters n =
        (List.range n).map
          (fun i => Legacy.optResponse m.responses ((counters m.request + i + 1) % k)) := by
  have hstep : ∀ c : Nat, Legacy.GetResponse rng m (c + 1)
      = Legacy.optResponse m.responses ((c + 1) % k) := by
    intro c
    unfold Legacy.GetResponse
    rw [if_neg (by simp [hresp])]
    by_cases hone : m.responses.length = 1
    · have hk1 : k = 1 := by omega
      rw [if_neg (by omega), if_pos hone]
      simp [hk1, Nat.mod_one]
    · rw [if_neg (by omega), if_neg hone]
      have hseq : Legacy.getSequentialResponse m (c + 1)
          = Legacy.optResponse m.responses ((c + 1) % k) := by
        unfold Legacy.getSequentialResponse
        rw [if_neg (by omega), hk]
      rcases hmode with hm | hm <;> rw [hm] <;> simp [hseq]
  intro n
  induction n with
  | zero => intro counters; simp [Legacy.runTexts]
  | succ n ih =>
    intro counters
    rw [Legacy.runTexts]
    rw [Legacy.sendResponseText]
    simp only
    have hcnt : cUpd counters m.request (counters m.request + 1) m.request
        = counters m.request + 1 := by simp [cUpd]
    rw [hcnt, hstep]
    rw [ih (cUpd counters m.request (counters m.request + 1))]
    rw [hcnt]
    rw [List.range_succ_eq_map]
    simp only [List.map_cons, List.map_map]
    rw [List.cons_eq_cons]
    refine ⟨by simp, ?_⟩
    apply List.map_congr_left
    intro i _
    simp only [Function.comp_apply]
    congr 1
    first
    | omega
    | (congr 1; omega)

theorem range_two_mul_map_mod (k : Nat) (h1 : 1 ≤ k) :
    (List.range (2 * k)).map (fun i => i % k) = List.range k ++ List.range k := by
  have h2 : 2 * k = k + k := by omega
  rw [h2, List.range_add, List.map_append, List.map_map]
  have hfirst : (List.range k).map (fun i => i % k) = List.range k := by
    have := List.map_congr_left (l := List.range k)
      (f := fun i => i % k) (g := fun i => i)
      (by intro i hi; exact Nat.mod_eq_of_lt (List.mem_range.mp hi))
    rw [this]; simp
  have hsecond : (List.range k).map ((fun i => i % k) ∘ (k + ·)) = List.range k := by
    have := List.map_congr_left (l := List.range k)
      (f := (fun i => i % k) ∘ (k + ·)) (g := fun i => i)
      (by
        intro i hi
        simp only [Function.comp_apply]
        rw [Nat.add_mod_left]
        exact Nat.mod_eq_of_lt (List.mem_range.mp hi))
    rw [this]; simp
  rw [hfirst, hsecond]

/-- C1 (amended): on the chunk-based engine, a mapping with `k ≥ 1`
responses answers `2k` consecutive matched requests with the options at
indices `[0,…,k-1,0,…,k-1]`, the per-mapping counter being read before its
increment (index `c mod k`).  The legacy engine (emulator.go) instead
increments the counter before calling `GetResponse`, so its `i`-th request
(0-based) selects index `(i+1) mod k`: the same `2k` requests return the
responses at indices `[1,…,k-1,0]` twice. -/
theorem sequential_selection_amended (m2 : Chunked.RequestResponse)
    (m : Legacy.RequestResponse) (rng : Nat → Nat) (k : Nat) (h1 : 1 ≤ k)
    (hk2 : m2.responses.length = k)
    (hresp : m.response = "")
    (hmode : m.responseConfig.selectionMode = "sequential" ∨
             m.responseConfig.selectionMode = "")
    (hk : m.responses.length = k) :
    Chunked.runIndices m2 (fun _ => 0) (2 * k) = List.range k ++ List.range k ∧
    Legacy.runTexts rng m (fun _ => 0) (2 * k) =
      (List.range (2 * k)).map (fun i => Legacy.optResponse m.responses ((i + 1) % k)) := by
  constructor
  · rw [chunked_runIndices_formula m2 k hk2 h1 (2 * k) (fun _ => 0)]
    have heq : (List.range (2 * k)).map
          (fun i => ((fun _ => (0 : Nat)) m2.request + i) % k)
        = (List.range (2 * k)).map (fun i => i % k) := by
      apply List.map_congr_left
      intro i _
      simp
    rw [heq, range_two_mul_map_mod k h1]
  · rw [legacy_runTexts_formula rng m k hresp hmode hk h1 (2 * k) (fun _ => 0)]
    apply List.map_congr_left
    intro i _
    simp

/-- Legacy mapping used by the C1 counterexample and witness: two responses,
sequential mode, empty single-string response. -/
def c1Mapping : Legacy.RequestResponse :=
  ⟨"q", false, "", [⟨"A", 0, 0⟩, ⟨"B", 0, 1⟩], ⟨0, 0, false, 0, 0, "sequential"⟩⟩

/-- C1 counterexample: on the legacy engine, 2k = 4 consecutive matched
requests of a fresh sequential two-response mapping return ["B","A","B","A"]
(indices 1,0,1,0), not the claimed ["A","B","A","B"] (indices 0,1,0,1):
the first selection does not use the pre-increment counter value. -/
theorem c1_counterexample :
    Legacy.runTexts (fun _ => 0) c1Mapping (fun _ => 0) 4 = ["B", "A", "B", "A"] ∧
    (["B", "A", "B", "A"] : List String) ≠ ["A", "B", "A", "B"] := by
  constructor
  · decide
  · decide

/-- Chunk-based mapping with two responses for the C1 witness. -/
def c1ChunkMapping : Chunked.RequestResponse := ⟨"q", [⟨[]⟩, ⟨[]⟩]⟩

/-- C1 witness: the amended theorem instantiated at k = 2. -/
theorem sequential_selection_amended_witness :
    c1ChunkMapping.responses.length = 2 ∧
    c1Mapping.response = "" ∧
    (Chunked.runIndices c1ChunkMapping (fun _ => 0) (2 * 2) =
        List.range 2 ++ List.range 2 ∧
     Legacy.runTexts (fun _ => 0) c1Mapping (fun _ => 0) (2 * 2) =
       (List.range (2 * 2)).map
         (fun i => Legacy.optResponse c1Mapping.responses ((i + 1) % 2))) :=
  ⟨by decide, by decide,
   sequential_selection_amended c1ChunkMapping c1Mapping (fun _ => 0) 2 (by decide)
     (by decide) (by decide) (by decide) (by decide)⟩

namespace Legacy

/-- `Emulator.findResponse` of the legacy emulator (emulator.go): iterate
the configured mappings in order; a regex mapping matches when the pattern
matches anywhere in the request (`regexp.MatchString`, abstracted by the
oracle `rmatch`), a literal mapping when the request CONTAINS the pattern as
a substring; the first match wins. -/
def findResponse (rmatch : String → String → Bool) :
    List RequestResponse → String → Option RequestResponse
  | [], _ => none
  | m :: rest, request =>
    if (if m.isRegex then rmatch m.request request
        else containsL request.toList m.request.toList) then some m
    else findResponse rmatch rest request

end Legacy

/-- Modelled from the spec's words (§4.2 Matching): first mapping, in
configuration order, whose pattern the request contains as a substring
(literal) or whose compiled pattern matches anywhere in the request
(regex). -/
def specFirstMatch (rmatch : String → String → Bool)
    (mappings : List Legacy.RequestResponse) (request : String) :
    Option Legacy.RequestResponse :=
  mappings.find? (fun m =>
    if m.isRegex then rmatch m.request request
    else containsL request.toList m.request.toList)

namespace Chunked

/-- `Emulator.findResponse` of the chunk-based emulator (part_007): iterate
the mappings in order and return the first whose pattern equals the request
after trimming whitespace on both sides — no substring or regex matching. -/
def findResponse : List RequestResponse → String → Option RequestResponse
  | [], _ => none
  | m :: rest, request =>
    if goTrimSpaceL request.toList = goTrimSpaceL m.request.toList then some m
    else findResponse rest request

end Chunked

/-- C3 (amended): the legacy engine (emulator.go) matches exactly as the
claim states — first mapping in configuration order, substring containment
for literal patterns, regex-anywhere for regex patterns.  The chunk-based
engine (part_007) instead returns the first mapping whose pattern equals
the request after whitespace trimming; it has no substring or regex
matching. -/
theorem request_matching_amended :
    (∀ (rmatch : String → String → Bool)
       (mappings : List Legacy.RequestResponse) (request : String),
       Legacy.findResponse rmatch mappings request =
         specFirstMatch rmatch mappings request) ∧
    (∀ (mappings : List Chunked.RequestResponse) (request : String),
       Chunked.findResponse mappings request =
         mappings.find?
           (fun m => goTrimSpaceL request.toList = goTrimSpaceL m.request.toList)) := by
  constructor
  · intro rmatch mappings request
    induction mappings with
    | nil => rfl
    | cons m rest ih =>
      rw [Legacy.findResponse, specFirstMatch, List.find?]
      by_cases hm : (if m.isRegex then rmatch m.request request
          else containsL request.toList m.request.toList) = true
      · simp only [hm, if_true]
      · simp only [Bool.not_eq_true] at hm
        simp only [hm, if_false, Bool.false_eq_true]
        rw [ih, specFirstMatch]
  · intro mappings request
    induction mappings with
    | nil => rfl
    | cons m rest ih =>
      rw [Chunked.findResponse, List.find?]
      by_cases hm : goTrimSpaceL request.toList = goTrimSpaceL m.request.toList
      · rw [if_pos hm, decide_eq_true hm]
      · rw [if_neg hm]
        have : decide (goTrimSpaceL request.toList = goTrimSpaceL m.request.toList)
            = false := decide_eq_false hm
        rw [this, ih]

/-- Chunk-based mapping with pattern "?" for the C3 counterexample. -/
def c3Mapping : Chunked.RequestResponse := ⟨"?", []⟩

/-- C3 counterexample: the request "x?" contains the literal pattern "?" as
a substring, yet the chunk-based engine finds no matching mapping, because
it compares by trimmed equality rather than containment. -/
theorem c3_counterexample :
    containsL "x?".toList "?".toList = true ∧
    Chunked.findResponse [c3Mapping] "x?" = none := by
  constructor
  · decide
  · decide

/-- Reader-loop state shared by both emulators: the per-mapping request
counters and the accumulating request buffer. -/
structure EngineState where
  counters : String → Nat
  buffer : List Char

namespace Chunked

/-- One iteration of the chunk-based `handleRequests` for a non-empty read:
append the data to the buffer, treat the whole trimmed buffer as the
request; an empty trimmed request keeps accumulating; otherwise look up a
mapping and deliver via `sendResponse` (errors are logged, the loop
continues), then reset the buffer.  Returns the new state, the chunk texts
written and the logged error, if any. -/
def handleRead (unquote : String → Option String) (mappings : List RequestResponse)
    (st : EngineState) (data : List Char) :
    EngineState × List String × Option EmuErr :=
  let buf := st.buffer ++ data
  let request := goTrimSpaceL buf
  if request.isEmpty then (⟨st.counters, buf⟩, [], none)
  else
    match findResponse mappings (String.mk request) with
    | none => (⟨st.counters, []⟩, [], none)
    | some m =>
      match sendResponse unquote st.counters m with
      | .error e => (⟨st.counters, []⟩, [], some e)
      | .ok (c2, _, outs) => (⟨c2, []⟩, outs, none)

/-- Outputs and logged errors of the reader loop over a list of reads. -/
def runReads (unquote : String → Option String) (mappings : List RequestResponse) :
    EngineState → List (List Char) → List String × List EmuErr
  | _, [] => ([], [])
  | st, d :: ds =>
    let r := handleRead unquote mappings st d
    let rest := runReads unquote mappings r.1 ds
    (r.2.1 ++ rest.1, (match r.2.2 with | some e => [e] | none => []) ++ rest.2)

end Chunked

namespace Legacy

/-- One iteration of the legacy `handleRequests` for a non-empty read.  The
matched branch hands the mapping to `go e.sendResponse` — abstracted by the
`deliver` oracle, which yields the updated counters and the written bytes;
an unmatched request is only logged. -/
def handleRead (rmatch : String → String → Bool)
    (deliver : RequestResponse → String → (String → Nat) → (String → Nat) × List String)
    (mappings : List RequestResponse) (st : EngineState) (data : List Char) :
    EngineState × List String :=
  let buf := st.buffer ++ data
  let request := goTrimSpaceL buf
  if request.isEmpty then (⟨st.counters, buf⟩, [])
  else
    match findResponse rmatch mappings (String.mk request) with
    | none => (⟨st.counters, []⟩, [])
    | some m =>
      let r := deliver m (String.mk request) st.counters
      (⟨r.1, []⟩, r.2)

end Legacy

/-- C8: a request that matches no configured mapping produces no output
bytes and no error, leaves the counters untouched, and the loop goes on to
service the following reads exactly as if the unmatched request had never
arrived — on the chunk-based engine and on the legacy engine (for every
delivery behavior of the latter's response goroutine). -/
theorem unmatched_request_no_output (unquote : String → Option String)
    (mappings : List Chunked.RequestResponse) (counters : String → Nat)
    (r : List Char) (rs : List (List Char))
    (hne : ¬(goTrimSpaceL r).isEmpty = true)
    (hnm : Chunked.findResponse mappings (String.mk (goTrimSpaceL r)) = none) :
    Chunked.handleRead unquote mappings ⟨counters, []⟩ r = (⟨counters, []⟩, [], none) ∧
    Chunked.runReads unquote mappings ⟨counters, []⟩ (r :: rs) =
      Chunked.runReads unquote mappings ⟨counters, []⟩ rs ∧
    (∀ (rmatch : String → String → Bool)
       (deliver : Legacy.RequestResponse → String → (String → Nat) →
         (String → Nat) × List String)
       (lmappings : List Legacy.RequestResponse) (lcounters : String → Nat),
       Legacy.findResponse rmatch lmappings (String.mk (goTrimSpaceL r)) = none →
       Legacy.handleRead rmatch deliver lmappings ⟨lcounters, []⟩ r =
         (⟨lcounters, []⟩, [])) := by
  have hstep : Chunked.handleRead unquote mappings ⟨counters, []⟩ r
      = (⟨counters, []⟩, [], none) := by
    unfold Chunked.handleRead
    simp only [List.nil_append]
    rw [if_neg hne, hnm]
  refine ⟨hstep, ?_, ?_⟩
  · simp only [Chunked.runReads, hstep, List.nil_append, Prod.mk.eta]
  · intro rmatch deliver lmappings lcounters hlnm
    unfold Legacy.handleRead
    simp only [List.nil_append]
    rw [if_neg hne, hlnm]

/-- Chunk-based mapping for the C8 witness. -/
def c8Mapping : Chunked.RequestResponse := ⟨"?", [⟨[⟨"ok", 0, 0⟩]⟩]⟩

/-- C8 witness: the request "zzz" matches neither the chunk-based mapping
"?" nor a legacy mapping, produces no output, and the loop still services
the next read. -/
theorem unmatched_request_no_output_witness :
    (¬(goTrimSpaceL "zzz".toList).isEmpty = true ∧
     Chunked.findResponse [c8Mapping] (String.mk (goTrimSpaceL "zzz".toList)) = none) ∧
    (Chunked.handleRead (fun _ => none) [c8Mapping] ⟨fun _ => 0, []⟩ "zzz".toList =
        (⟨fun _ => 0, []⟩, [], none) ∧
     Chunked.runReads (fun _ => none) [c8Mapping] ⟨fun _ => 0, []⟩
         ["zzz".toList, "?".toList] =
       Chunked.runReads (fun _ => none) [c8Mapping] ⟨fun _ => 0, []⟩ ["?".toList] ∧
     (∀ (rmatch : String → String → Bool)
        (deliver : Legacy.RequestResponse → String → (String → Nat) →
          (String → Nat) × List String)
        (lmappings : List Legacy.RequestResponse) (lcounters : String → Nat),
        Legacy.findResponse rmatch lmappings (String.mk (goTrimSpaceL "zzz".toList)) = none →
        Legacy.handleRead rmatch deliver lmappings ⟨lcounters, []⟩ "zzz".toList =
          (⟨lcounters, []⟩, []))) :=
  ⟨⟨by decide, by decide⟩,
   unmatched_request_no_output (fun _ => none) [c8Mapping] (fun _ => 0)
     "zzz".toList ["?".toList] (by decide) (by decide)⟩

/-- Errors of the nets parser (`ErrParseNetLine`, index errors,
`ErrParseLineDuplicateIndex`). -/
inductive NetErr
  | fieldCount (line : List Char)
  | badIndex (line : List Char)
  | dupIndex (idx cur : Int)
  | noVoltage (line : List Char)
  | noColor (line : List Char)
deriving Repr, DecidableEq

/-- A parsed net (`jumperlessv5alpha1.Net`). -/
structure Net where
  index : Int
  name : String
  voltage : Option String
  color : Option String
  nodes : List String
  data : Option String
deriving Repr, DecidableEq

/-- The ordered list of color names known to the nets parser. -/
def namedColors : List String :=
  ["red", "orange", "amber", "yellow", "chartreuse", "green", "seafoam",
   "cyan", "blue", "royal blue", "indigo", "violet", "purple", "pink",
   "magenta", "white", "black", "grey"]

/-- Go `strings.SplitN(s, "\t", 3)`. -/
def splitN3Tab (s : List Char) : List (List Char) :=
  let c1 := cutSub [Char.ofNat 9] s
  if c1.2.2 then
    let c2 := cutSub [Char.ofNat 9] c1.2.1
    if c2.2.2 then [c1.1, c2.1, c2.2.1] else [c1.1, c2.1]
  else [c1.1]

/-- The node list: split on commas, trim each token, drop empties. -/
def nodesOf (nodesPart : List Char) : List String :=
  (splitChar ',' nodesPart).filterMap
    (fun n => let t := goTrimSpaceL n; if t.isEmpty then none else some (String.mk t))

/-- `parseNetLine` of the local controller (part_009): split into at most 3
tab fields, parse and check the index against the previous one, then read
either the voltage (` V` cut) or the color/flag/extra-data form. -/
def parseNetLine (netLine : List Char) (hasColor : Bool) (currentIndex : Int) :
    Except NetErr Net :=
  let fields := splitN3Tab netLine
  if fields.length < 3 then .error (.fieldCount netLine)
  else
    match parseIntGo (goTrimSpaceL (fields.getD 0 [])) with
    | none => .error (.badIndex netLine)
    | some index =>
      if index ≤ currentIndex then .error (.dupIndex index currentIndex)
      else
        let name := String.mk (goTrimSpaceL (fields.getD 1 []))
        let rest := goTrimSpaceL (fields.getD 2 [])
        if !hasColor then
          let cv := cutSub " V".toList rest
          if cv.2.2 then
            .ok ⟨index, name, some (String.mk (goTrimSpaceL cv.1 ++ ['V'])), none,
                 nodesOf (goTrimSpaceL cv.2.1), none⟩
          else .error (.noVoltage netLine)
        else
          let r1 := rest.dropWhile (fun c => c == Char.ofNat 8)
          let r2 := goTrimSpaceL (trimPrefixL r1 ['*'])
          match namedColors.find? (fun col => startsWithL r2 col.toList) with
          | none => .error (.noColor netLine)
          | some col =>
            let r3 := goTrimSpaceL (trimPrefixL r2 col.toList)
            let r4 :=
              match r3 with
              | a :: b :: c :: rr =>
                if a == '-' && b == ' ' && alphaC c then goTrimSpaceL rr else r3
              | _ => r3
            let ct := cutSub [Char.ofNat 9] r4
            .ok ⟨index, name, none, some col,
                 nodesOf (goTrimSpaceL ct.1),
                 if ct.2.2 then some (String.mk (goTrimSpaceL ct.2.1)) else none⟩

/-- The line loop of `parseNets` (part_009): skip blank lines, a line whose
trimmed form starts with "Index" is a header toggling `hasColor`, other
lines are records; duplicate-index errors are dropped silently, any other
error is collected.  NOTE (faithful to the source): `currentIndex` is
initialised to 0 and never updated after a successful parse. -/
def parseNetsLoop : List (List Char) → Bool → Int → List Net × List NetErr
  | [], _, _ => ([], [])
  | line :: rest, hasColor, currentIndex =>
    let trimmed := goTrimSpaceL line
    if trimmed.isEmpty then parseNetsLoop rest hasColor currentIndex
    else if startsWithL trimmed "Index".toList then
      parseNetsLoop rest (containsL trimmed "Color".toList) currentIndex
    else
      match parseNetLine trimmed hasColor currentIndex with
      | .error e =>
        let r := parseNetsLoop rest hasColor currentIndex
        match e with
        | .dupIndex _ _ => r
        | _ => (r.1, e :: r.2)
      | .ok net =>
        let r := parseNetsLoop rest hasColor currentIndex
        (net :: r.1, r.2)

/-- `parseNets`: split the output into lines and run the loop with
`hasColor = false` and `currentIndex = 0`.  The error list stands for the
aggregate error; an empty list is a nil error. -/
def parseNets (netsOutput : String) : List Net × List NetErr :=
  parseNetsLoop (splitChar (Char.ofNat 10) netsOutput.toList) false 0

/-- C2 input from the claim. -/
def c2Input : String := "Index\tA\n1\tGND\t0 V\tGND\n1\tGND\t0 V\tGND\n2\tNet2\t1 V\tN2\n"

/-- C2: the code evaluated at the claim's input.  `parseNets` returns THREE
nets — the repeated index-1 line is parsed again, not dropped — and no
error, because the loop never advances `currentIndex` past its initial 0,
so the duplicate-index check `net.Index <= currentIndex` only ever rejects
non-positive indices. -/
theorem parseNets_duplicate_line_not_dropped :
    parseNets c2Input =
      ([⟨1, "GND", some "0V", none, ["GND"], none⟩,
        ⟨1, "GND", some "0V", none, ["GND"], none⟩,
        ⟨2, "Net2", some "1V", none, ["N2"], none⟩], []) := by
  decide

/-- Config-parse errors (both wrap `ErrParseNetLine` in the source). -/
inductive CfgErr
  | noBracket (line : List Char)
  | noEquals (trimmedLine : List Char)
deriving Repr, DecidableEq

/-- `jumperlessv5alpha1.JumperlessConfigEntry`. -/
structure JumperlessConfigEntry where
  key : String
  value : String
deriving Repr, DecidableEq

/-- `jumperlessv5alpha1.JumperLessConfigSection`. -/
structure JumperLessConfigSection where
  name : String
  entries : List JumperlessConfigEntry
deriving Repr, DecidableEq

/-- Ensure a section exists in the accumulated config
(`if _, ok := config[section]; !ok { config[section] = map{} }`). -/
def cfgEnsure (cfg : List (List Char × List (List Char × List Char))) (sec : List Char) :
    List (List Char × List (List Char × List Char)) :=
  if cfg.any (fun p => p.1 = sec) then cfg else cfg ++ [(sec, [])]

/-- Go map assignment on a section's entry map. -/
def entriesPut (es : List (List Char × List Char)) (k v : List Char) :
    List (List Char × List Char) :=
  if es.any (fun p => p.1 = k) then es.map (fun p => if p.1 = k then (k, v) else p)
  else es ++ [(k, v)]

/-- Store `config[section][key] = value`. -/
def cfgPut (cfg : List (List Char × List (List Char × List Char)))
    (sec k v : List Char) : List (List Char × List (List Char × List Char)) :=
  cfg.map (fun p => if p.1 = sec then (sec, entriesPut p.2 k v) else p)

/-- One line of `parseConfig` (part_009): skip blank lines and lines not
starting (trimmed) with a backtick-bracket; cut on the first `]` for the
section (missing is an error), cut on the first `=` for the entry (missing
is an error, the section still created); store the trimmed key and the
trimmed value with a single trailing semicolon stripped and no re-trim. -/
def parseCfgLine (acc : List (List Char × List (List Char × List Char)) × List CfgErr)
    (line : List Char) :
    List (List Char × List (List Char × List Char)) × List CfgErr :=
  let trimmed := goTrimSpaceL line
  if trimmed.isEmpty then acc
  else if !(startsWithL trimmed "`[".toList) then acc
  else
    let t2 := trimPrefixL trimmed "`[".toList
    let c1 := cutSub "]".toList t2
    if !c1.2.2 then (acc.1, acc.2 ++ [.noBracket line])
    else
      let sec := c1.1
      let entry := c1.2.1
      let cfg := cfgEnsure acc.1 sec
      let c2 := cutSub "=".toList entry
      if !c2.2.2 then (cfg, acc.2 ++ [.noEquals trimmed])
      else
        (cfgPut cfg sec (goTrimSpaceL c2.1)
           (trimSuffixL (goTrimSpaceL c2.2.1) ";".toList), acc.2)

/-- `parseConfig` (part_009): fold the lines, then convert the accumulated
nested maps (association lists in insertion order; the Go map iteration
order is unspecified) into section records. -/
def parseConfigL (configOutput : List Char) :
    List JumperLessConfigSection × List CfgErr :=
  let r := (splitChar (Char.ofNat 10) configOutput).foldl parseCfgLine ([], [])
  (r.1.map (fun p =>
     ⟨String.mk p.1, p.2.map (fun q => ⟨String.mk q.1, String.mk q.2⟩)⟩), r.2)

theorem splitChar_not_mem (sep : Char) (l : List Char) (h : sep ∉ l) :
    splitChar sep l = [l] := by
  induction l with
  | nil => rfl
  | cons c rest ih =>
    have hne : ¬ c = sep := fun he => h (by simp [he])
    have hrest : sep ∉ rest := fun hm => h (List.mem_cons_of_mem _ hm)
    simp [splitChar, ih hrest, hne]

theorem trimLeftL_cons_nonspace (c : Char) (l : List Char) (h : goIsSpace c = false) :
    trimLeftL (c :: l) = c :: l := by
  simp [trimLeftL, List.dropWhile_cons, h]

theorem trimRightL_append_nonspace (l : List Char) (c : Char) (h : goIsSpace c = false) :
    trimRightL (l ++ [c]) = l ++ [c] := by
  simp [trimRightL, List.dropWhile_cons, h]

theorem trimLeftL_append_single (v : List Char) (c : Char) (h : goIsSpace c = false) :
    trimLeftL (v ++ [c]) = trimLeftL v ++ [c] := by
  induction v with
  | nil => simp [trimLeftL, List.dropWhile_cons, h]
  | cons a vs ih =>
    by_cases ha : goIsSpace a = true
    · simp only [List.cons_append, trimLeftL, List.dropWhile_cons, ha, if_true]
      exact ih
    · simp only [Bool.not_eq_true] at ha
      simp [trimLeftL, List.dropWhile_cons, ha]

theorem trimSuffixL_append_single (x : List Char) (c : Char) :
    trimSuffixL (x ++ [c]) [c] = x := by
  unfold trimSuffixL
  have hend : endsWithL (x ++ [c]) [c] = true := by
    simp [endsWithL, startsWithL]
  rw [if_pos hend]
  simp

theorem cutSub_single_append (c0 : Char) (pre post : List Char) (h : c0 ∉ pre) :
    cutSub [c0] (pre ++ c0 :: post) = (pre, post, true) := by
  induction pre with
  | nil => simp [cutSub, startsWithL]
  | cons p ps ih =>
    have hp : ¬ p = c0 := fun he => h (by simp [he])
    have hps : c0 ∉ ps := fun hm => h (List.mem_cons_of_mem _ hm)
    rw [List.cons_append, cutSub]
    have hsw : startsWithL (p :: (ps ++ c0 :: post)) [c0] = false := by
      simp [startsWithL, hp]
    rw [hsw]
    simp only [Bool.false_eq_true, if_false, ih hps]

/-- The config line `` `[sec]k=v; `` built from its pieces. -/
def cfgLine (sec k v : List Char) : List Char :=
  '`' :: '[' :: (sec ++ ']' :: (k ++ '=' :: (v ++ [';'])))

theorem cfgLine_trim (sec k v : List Char) :
    goTrimSpaceL (cfgLine sec k v) = cfgLine sec k v := by
  unfold goTrimSpaceL cfgLine
  rw [trimLeftL_cons_nonspace _ _ (by decide)]
  have hshape : ('`' : Char) :: '[' :: (sec ++ ']' :: (k ++ '=' :: (v ++ [';'])))
      = ('`' :: '[' :: (sec ++ ']' :: (k ++ '=' :: v))) ++ [';'] := by
    simp
  rw [hshape, trimRightL_append_nonspace _ _ (by decide)]

/-- C5: for a config-dump line `` `[sec]k=v; `` whose section contains no
closing bracket and whose key part contains no equals sign, the parser
stores the key with surrounding whitespace trimmed and the value-plus-
semicolon with surrounding whitespace trimmed and then exactly one
trailing semicolon removed without re-trimming — so leading whitespace of
the value is gone but whitespace between the value and the semicolon
survives. -/
theorem parseConfig_line_quirk (sec k v : List Char)
    (hnl1 : Char.ofNat 10 ∉ sec) (hnl2 : Char.ofNat 10 ∉ k) (hnl3 : Char.ofNat 10 ∉ v)
    (hsec : ']' ∉ sec) (hkeq : '=' ∉ k) :
    parseConfigL (cfgLine sec k v) =
      ([⟨String.mk sec,
         [⟨String.mk (goTrimSpaceL k),
           String.mk (trimSuffixL (goTrimSpaceL (v ++ [';'])) [';'])⟩]⟩], []) ∧
    trimSuffixL (goTrimSpaceL (v ++ [';'])) [';'] = trimLeftL v := by
  have hvsemi : trimSuffixL (goTrimSpaceL (v ++ [';'])) [';'] = trimLeftL v := by
    have h1 : trimLeftL (v ++ [';']) = trimLeftL v ++ [';'] :=
      trimLeftL_append_single v ';' (by decide)
    have h2 : goTrimSpaceL (v ++ [';']) = trimLeftL v ++ [';'] := by
      unfold goTrimSpaceL
      rw [h1, trimRightL_append_nonspace _ _ (by decide)]
    rw [h2, trimSuffixL_append_single]
  refine ⟨?_, hvsemi⟩
  have hnl : Char.ofNat 10 ∉ cfgLine sec k v := by
    unfold cfgLine
    intro hm
    simp only [List.mem_cons, List.mem_append, List.mem_singleton,
      List.not_mem_nil, or_false] at hm
    rcases hm with h | hm
    · exact absurd h (by decide)
    rcases hm with h | hm
    · exact absurd h (by decide)
    rcases hm with h | hm
    · exact hnl1 h
    rcases hm with h | hm
    · exact absurd h (by decide)
    rcases hm with h | hm
    · exact hnl2 h
    rcases hm with h | hm
    · exact absurd h (by decide)
    rcases hm with h | h
    · exact hnl3 h
    · exact absurd h (by decide)
  have hlit : "`[".toList = ['`', '['] := rfl
  have hstart : startsWithL (cfgLine sec k v) "`[".toList = true := by
    rw [hlit]
    unfold cfgLine
    simp [startsWithL]
  have hempty : (cfgLine sec k v).isEmpty = false := rfl
  have hdrop : trimPrefixL (cfgLine sec k v) "`[".toList
      = sec ++ ']' :: (k ++ '=' :: (v ++ [';'])) := by
    unfold trimPrefixL
    rw [hstart, hlit]
    simp [cfgLine]
  have hcut1 : cutSub "]".toList (sec ++ ']' :: (k ++ '=' :: (v ++ [';'])))
      = (sec, k ++ '=' :: (v ++ [';']), true) := cutSub_single_append ']' sec _ hsec
  have hcut2 : cutSub "=".toList (k ++ '=' :: (v ++ [';']))
      = (k, v ++ [';'], true) := cutSub_single_append '=' k _ hkeq
  have hline : parseCfgLine ([], []) (cfgLine sec k v)
      = ([(sec, [(goTrimSpaceL k,
           trimSuffixL (goTrimSpaceL (v ++ [';'])) ";".toList)])], []) := by
    simp only [parseCfgLine, cfgLine_trim, hempty, hstart, hdrop, hcut1, hcut2,
      Bool.not_true, Bool.not_false, Bool.false_eq_true, if_false, if_true,
      cfgEnsure, List.any_nil, List.nil_append, cfgPut, List.map, entriesPut,
      eq_self_iff_true]
  unfold parseConfigL
  rw [splitChar_not_mem _ _ hnl]
  simp only [List.foldl, hline, List.map]
  rfl

/-- C5 witness: the test input `` `[test]   key   =   value   ; `` yields
key "key" and value "value   " with the trailing spaces preserved. -/
theorem parseConfig_line_quirk_witness :
    (parseConfigL (cfgLine "test".toList "   key   ".toList "   value   ".toList) =
       ([⟨String.mk "test".toList,
          [⟨String.mk (goTrimSpaceL "   key   ".toList),
            String.mk (trimSuffixL (goTrimSpaceL ("   value   ".toList ++ [';'])) [';'])⟩]⟩], []) ∧
     trimSuffixL (goTrimSpaceL ("   value   ".toList ++ [';'])) [';'] =
       trimLeftL "   value   ".toList) ∧
    cfgLine "test".toList "   key   ".toList "   value   ".toList =
      "`[test]   key   =   value   ;".toList ∧
    String.mk (goTrimSpaceL "   key   ".toList) = "key" ∧
    String.mk (trimSuffixL (goTrimSpaceL ("   value   ".toList ++ [';'])) [';']) = "value   " :=
  ⟨parseConfig_line_quirk "test".toList "   key   ".toList "   value   ".toList
     (by decide) (by decide) (by decide) (by decide) (by decide),
   by decide, by decide, by decide⟩

/-- Errors of `ExecPythonCommand` post-processing; both wrap
`ErrUnexpectedCommandOutput` in the source, which returns them together
with the empty result string. -/
inductive PyErr
  | tooFewLines (got : Nat)
  | noOutputLines
deriving Repr, DecidableEq

/-- The filter of `ExecPythonCommand`: keep a line's trimmed form when it
is non-blank and does not start with the prompt marker "Python>". -/
def pyKeep (line : List Char) : Option (List Char) :=
  let t := goTrimSpaceL line
  if t.isEmpty then none
  else if startsWithL t "Python>".toList then none
  else some t

/-- `Jumperless.ExecPythonCommand` (part_013) from the ANSI-stripped raw
reply onward: split on CR+LF; fewer than 3 raw lines is a format error;
filter out blank and prompt lines; no surviving line is an error, one line
is returned as is, several are joined with a newline. -/
def execPythonPost (stripped : List Char) : Except PyErr String :=
  let resultLines := splitCRLF stripped
  if resultLines.length < 3 then .error (.tooFewLines resultLines.length)
  else
    match resultLines.filterMap pyKeep with
    | [] => .error .noOutputLines
    | [x] => .ok (String.mk x)
    | xs => .ok (String.intercalate "\n" (xs.map String.mk))

/-- C10: when the ANSI-stripped reply splits into at least 3 CR+LF lines
but every line is blank or starts with "Python>" after trimming,
`ExecPythonCommand` returns the unexpected-command-output error (with the
empty result string), not an empty success. -/
theorem execPython_all_prompt_is_error (stripped : List Char)
    (h3 : 3 ≤ (splitCRLF stripped).length)
    (hall : ∀ l ∈ splitCRLF stripped,
      (goTrimSpaceL l).isEmpty = true ∨
      startsWithL (goTrimSpaceL l) "Python>".toList = true) :
    execPythonPost stripped = .error .noOutputLines := by
  have hfilter : (splitCRLF stripped).filterMap pyKeep = [] := by
    rw [List.filterMap_eq_nil_iff]
    intro l hl
    rcases hall l hl with h | h
    · simp [pyKeep, h]
    · unfold pyKeep
      by_cases he : (goTrimSpaceL l).isEmpty = true
      · simp [he]
      · simp only [Bool.not_eq_true] at he
        rw [show "Python>".toList = ['P', 'y', 't', 'h', 'o', 'n', '>'] from rfl] at h
        simp [he, h]
  unfold execPythonPost
  rw [if_neg (by omega), hfilter]

/-- C10 witness: the reply "Python> >x\r\n\r\nPython> " splits into 3
lines, all blank or prompt-prefixed, and yields the error. -/
theorem execPython_all_prompt_is_error_witness :
    (3 ≤ (splitCRLF "Python> >x\r\n\r\nPython> ".toList).length ∧
     ∀ l ∈ splitCRLF "Python> >x\r\n\r\nPython> ".toList,
       (goTrimSpaceL l).isEmpty = true ∨
       startsWithL (goTrimSpaceL l) "Python>".toList = true) ∧
    execPythonPost "Python> >x\r\n\r\nPython> ".toList = .error .noOutputLines :=
  ⟨⟨by decide, by decide⟩,
   execPython_all_prompt_is_error "Python> >x\r\n\r\nPython> ".toList
     (by decide) (by decide)⟩
